import Mathlib

/-!
Verification development for the hashpipe_status_keyvalues package
(src/hashpipe_status_keyvalues/__init__.py).

The package attaches to a hashpipe shared-memory status buffer, parses its
fixed 80-byte-record text content into a key/value mapping, and classifies
the mapping against a registry of schema descriptor classes.

Python strings are modelled as lists of characters (a Python str is a
sequence of code points).  Raw segment bytes are lists of naturals below 256.
Exceptions are modelled with Option/Except: a none or .error result marks the
Python code raising at that point.
-/

set_option autoImplicit false

/-- Python white-space predicate restricted to the ASCII white-space
characters recognised by str.strip(): space, tab, newline, carriage return,
vertical tab and form feed.  (Unicode-only white-space is outside the model;
status-buffer records are ASCII.) -/
def isPySpace (c : Char) : Bool :=
  c = ' ' || c = Char.ofNat 9 || c = Char.ofNat 10 || c = Char.ofNat 13 ||
  c = Char.ofNat 11 || c = Char.ofNat 12

/-- Python str.strip(): drop white-space from both ends. -/
def pyStrip (s : List Char) : List Char :=
  ((s.dropWhile isPySpace).reverse.dropWhile isPySpace).reverse

/-- The single-quote character (code point 39). -/
def squote : Char := Char.ofNat 39

/-- Value of a non-empty ASCII decimal digit string. -/
def digitsToNat (ds : List Char) : Nat :=
  ds.foldl (fun a c => a * 10 + (c.toNat - 48)) 0

/-- A non-empty run of ASCII decimal digits. -/
def allDigits (ds : List Char) : Bool :=
  !ds.isEmpty && ds.all Char.isDigit

/-- Python int(str) on ASCII decimal literals: surrounding white-space is
ignored, an optional single sign precedes a non-empty digit run.
(Underscore digit separators and non-ASCII digits accepted by CPython are
outside the model; no claim depends on them.)  none models ValueError. -/
def pyParseInt (s : List Char) : Option Int :=
  match pyStrip s with
  | '+' :: ds => if allDigits ds then some (digitsToNat ds : Int) else none
  | '-' :: ds => if allDigits ds then some (-(digitsToNat ds : Int)) else none
  | ds => if allDigits ds then some (digitsToNat ds : Int) else none

/-- Result of Python float(str).  A finite float is modelled by the exact
decimal rational the accepted literal denotes (IEEE-754 rounding is not
modelled; the claims only involve exactly representable values). -/
inductive PyFloat where
  | finite (q : Rat)
  | infinity (neg : Bool)
  | nan
deriving DecidableEq

/-- Longest digit run at the front of a character list, and the rest. -/
def spanDigits (l : List Char) : List Char × List Char :=
  (l.takeWhile Char.isDigit, l.dropWhile Char.isDigit)

/-- The decimal part of the Python float grammar, after the optional sign:
digits [. [digits]] [(e|E) [sign] digits], with at least one digit in the
mantissa.  Returns the exact rational value. -/
def parseDecimalBody (body : List Char) : Option Rat :=
  let (ip, r1) := spanDigits body
  let dotted := match r1 with
    | c :: r => if c = '.' then some (spanDigits r) else none
    | [] => none
  let fp := match dotted with
    | some (fp, _) => fp
    | none => []
  let r2 := match dotted with
    | some (_, r) => r
    | none => r1
  if ip.isEmpty && fp.isEmpty then none
  else
    let num : Nat := digitsToNat ip * 10 ^ fp.length + digitsToNat fp
    let den : Nat := 10 ^ fp.length
    match r2 with
    | [] => some (Rat.divInt num den)
    | c :: r3 =>
      if c = 'e' || c = 'E' then
        let (eneg, ds) := match r3 with
          | '+' :: r4 => (false, r4)
          | '-' :: r4 => (true, r4)
          | r4 => (false, r4)
        if allDigits ds then
          let e : Nat := digitsToNat ds
          some (if eneg then Rat.divInt num (den * 10 ^ e) else Rat.divInt (num * 10 ^ e) den)
        else none
      else none

/-- Python float(str): surrounding white-space ignored, optional sign, then
either a decimal literal or one of the special words inf, infinity, nan
(case-insensitive).  none models ValueError. -/
def pyParseFloat (s : List Char) : Option PyFloat :=
  let t := pyStrip s
  let signed : Bool × List Char := match t with
    | '+' :: r => (false, r)
    | '-' :: r => (true, r)
    | r => (false, r)
  let neg := signed.1
  let body := signed.2
  let lower := body.map Char.toLower
  if lower = ['i', 'n', 'f'] || lower = ['i', 'n', 'f', 'i', 'n', 'i', 't', 'y'] then
    some (.infinity neg)
  else if lower = ['n', 'a', 'n'] then
    some .nan
  else
    match parseDecimalBody body with
    | some q => some (.finite (if neg then -q else q))
    | none => none

/-- A decoded status-buffer value: int, else float, else string. -/
inductive DecodedValue where
  | int (n : Int)
  | float (f : PyFloat)
  | str (s : List Char)
deriving DecidableEq

instance : Inhabited DecodedValue := ⟨.str []⟩

instance : Inhabited PyFloat := ⟨.nan⟩

/-- HashpipeStatusSharedMemoryIPC._decode_value.  Tries int(v); on
ValueError tries float(v); on ValueError strips white-space and, when the
first and last characters are both single quotes, drops one quote from each
end and strips again.  none models the uncaught IndexError raised by v[0]
when the stripped string is empty. -/
def decode_value (v : List Char) : Option DecodedValue :=
  match pyParseInt v with
  | some n => some (.int n)
  | none =>
    match pyParseFloat v with
    | some f => some (.float f)
    | none =>
      match h : pyStrip v with
      | [] => none
      | c :: rest =>
        if c = squote && (c :: rest).getLast (by simp) = squote then
          some (.str (pyStrip ((c :: rest).drop 1).dropLast))
        else
          some (.str (c :: rest))

example : decode_value ['3'] = some (.int 3) := by decide
example : decode_value [squote, 'a', 'b', 'c', squote] = some (.str ['a', 'b', 'c']) := by decide
example : decode_value ['a', 'b', 'c'] = some (.str ['a', 'b', 'c']) := by decide
example : decode_value [' ', ' ', squote, 'a', 'b', 'c', squote, ' '] = some (.str ['a', 'b', 'c']) := by decide
example : decode_value (List.replicate 76 ' ') = none := by decide
example : decode_value [' ', '-', '4', '2', ' '] = some (.int (-42)) := by decide
example : decode_value ['i', 'n', 'f'] = some (.float (.infinity false)) := by decide
example : decode_value [squote] = some (.str []) := by decide
example : decode_value ['3', '.', '5'] = some (.float (.finite (Rat.divInt 7 2))) := by decide
example : decode_value ['1', 'e', '3'] = some (.float (.finite (Rat.divInt 1000 1))) := by decide
example : decode_value ['-', '2', '.', '5', 'e', '-', '1'] =
    some (.float (.finite (Rat.divInt (-1) 4))) := by decide
example : Rat.divInt 7 2 = 7 / 2 := by rw [Rat.divInt_eq_div]; norm_num

/-- Splitting of record.split(Char, maxsplit 1): the part before the first
occurrence of the separator and the part after it.  none models the
separator being absent, in which case the Python two-name unpacking of the
one-element split result raises ValueError. -/
def splitFirst (s : List Char) (sep : Char) : Option (List Char × List Char) :=
  match s with
  | [] => none
  | c :: rest =>
    if c = sep then some ([], rest)
    else
      match splitFirst rest sep with
      | some (k, v) => some (c :: k, v)
      | none => none

/-- One character of strict UTF-8 decoding, as bytes.decode() performs it:
given the first byte and the following bytes, the decoded character and the
number of continuation bytes its encoding used (0 to 3).  Continuation
bytes are checked, and overlong encodings, surrogate code points and
values above 0x10FFFF are rejected.  none models UnicodeDecodeError. -/
def utf8DecodeOne (b : Nat) (rest : List Nat) : Option (Char × Nat) :=
  if b < 0x80 then some (Char.ofNat b, 0)
  else if b < 0xC2 then none
  else if b < 0xE0 then
    match rest with
    | b1 :: _ =>
      if 0x80 ≤ b1 && b1 < 0xC0 then
        some (Char.ofNat ((b - 0xC0) * 0x40 + (b1 - 0x80)), 1)
      else none
    | [] => none
  else if b < 0xF0 then
    match rest with
    | b1 :: b2 :: _ =>
      if (0x80 ≤ b1 && b1 < 0xC0) && (0x80 ≤ b2 && b2 < 0xC0) &&
         !(b = 0xE0 && b1 < 0xA0) && !(b = 0xED && 0xA0 ≤ b1) then
        some (Char.ofNat ((b - 0xE0) * 0x1000 + (b1 - 0x80) * 0x40 + (b2 - 0x80)), 2)
      else none
    | _ => none
  else if b < 0xF5 then
    match rest with
    | b1 :: b2 :: b3 :: _ =>
      if (0x80 ≤ b1 && b1 < 0xC0) && (0x80 ≤ b2 && b2 < 0xC0) && (0x80 ≤ b3 && b3 < 0xC0) &&
         !(b = 0xF0 && b1 < 0x90) && !(b = 0xF4 && 0x90 ≤ b1) then
        some (Char.ofNat ((b - 0xF0) * 0x40000 + (b1 - 0x80) * 0x1000 +
          (b2 - 0x80) * 0x40 + (b3 - 0x80)), 3)
      else none
    | _ => none
  else none

/-- The decoding loop of bytes.decode(): one character per step.  The fuel
makes the loop structurally recursive; each character consumes at least one
byte, so a fuel equal to the byte count always suffices and the
fuel-exhaustion branch is then unreachable (utf8DecodeLoop_fuel). -/
def utf8DecodeLoop : Nat → List Nat → Option (List Char)
  | _, [] => some []
  | 0, _ :: _ => none
  | fuel + 1, b :: rest =>
    match utf8DecodeOne b rest with
    | some (c, k) => (utf8DecodeLoop fuel (rest.drop k)).map (fun cs => c :: cs)
    | none => none

/-- Strict UTF-8 decoding of a whole byte sequence, as bytes.decode(). -/
def utf8Decode (l : List Nat) : Option (List Char) :=
  utf8DecodeLoop l.length l

/-- The loop result does not depend on the fuel once the fuel covers the
byte count. -/
theorem utf8DecodeLoop_fuel (f1 f2 : Nat) (l : List Nat)
    (h1 : l.length <= f1) (h2 : l.length <= f2) :
    utf8DecodeLoop f1 l = utf8DecodeLoop f2 l := by
  induction f1 generalizing f2 l with
  | zero =>
    cases l with
    | nil => cases f2 <;> rfl
    | cons b rest => simp at h1
  | succ k ih =>
    cases l with
    | nil => cases f2 <;> rfl
    | cons b rest =>
      cases f2 with
      | zero => simp at h2
      | succ m =>
        simp only [utf8DecodeLoop]
        cases hone : utf8DecodeOne b rest with
        | none => rfl
        | some ck =>
          obtain ⟨c, j⟩ := ck
          simp only
          rw [ih m (rest.drop j)
            (by simp only [List.length_drop]; simp at h1; omega)
            (by simp only [List.length_drop]; simp at h2; omega)]

/-- Text carried by a pure-ASCII byte list. -/
def asciiDecode (r : List Nat) : List Char :=
  r.map Char.ofNat

/-- ASCII bytes of a character list (used to build concrete segments). -/
def asciiEncode (s : List Char) : List Nat :=
  s.map Char.toNat

/-- The sentinel record: the text END followed by 77 spaces (80 characters).
Source: HashpipeStatusSharedMemoryIPC.END_RECORD. -/
def END_RECORD : List Char :=
  'E' :: 'N' :: 'D' :: List.replicate 77 ' '

/-- The sentinel record as segment bytes. -/
def END_RECORD_BYTES : List Nat :=
  asciiEncode END_RECORD

/-- The key/value mapping built by parse_buffer: a Python dict modelled as
an insertion-ordered association list with unique keys. -/
abbrev Mapping : Type := List (List Char × DecodedValue)

/-- Python dict assignment d[k] = v: overwrite in place if the key is
present (keeping its original position), else append at the end. -/
def dictInsert (m : Mapping) (k : List Char) (v : DecodedValue) : Mapping :=
  match m with
  | [] => [(k, v)]
  | (k0, v0) :: rest =>
    if k0 = k then (k, v) :: rest else (k0, v0) :: dictInsert rest k v

/-- Python dict lookup d.get(k): the value at the first (hence only) entry
whose key is k. -/
def lookupKV (m : Mapping) (k : List Char) : Option DecodedValue :=
  match m with
  | [] => none
  | (k0, v0) :: rest => if k0 = k then some v0 else lookupKV rest k

/-- The keys of a mapping, in insertion order. -/
def mapKeys (m : Mapping) : List (List Char) :=
  m.map Prod.fst

/-- The schema classes registered in PROPERTY_FGET_CLASS_MAP. -/
inductive SchemaTag where
  | ata
  | cosmic
  | meerkat
deriving DecidableEq

/-- Result of auto_init_HashpipeStatusBuffer: either one of the registered
dict subclasses constructed as cls(**keyvalues) (the same key/value pairs
plus the named property accessors of the tagged mixin classes), or the raw
keyvalues dict unchanged. -/
inductive ClassifyResult where
  | specialized (tag : SchemaTag) (kv : Mapping)
  | raw (kv : Mapping)
deriving DecidableEq

/-- The key/value pairs exposed by a classification result. -/
def ClassifyResult.keyvalues : ClassifyResult → Mapping
  | .specialized _ kv => kv
  | .raw kv => kv

/-- One entry of PROPERTY_FGET_CLASS_MAP: a discriminator property fget
(external mixin code, hence opaque here: it receives the mapping and either
returns an optional decoded value or raises, modelled by Except) together
with the table from discriminator values to registered classes. -/
structure SchemaRegistryEntry where
  fget : Mapping → Except Unit (Option DecodedValue)
  table : List (DecodedValue × SchemaTag)

/-- Membership test property_value in value_class_map followed by the
indexing value_class_map[property_value] (Python None is never a key of the
registered tables, whose keys are the class telescope constants). -/
def lookupTable (table : List (DecodedValue × SchemaTag)) :
    Option DecodedValue → Option SchemaTag
  | none => none
  | some dv =>
    match table with
    | [] => none
    | (k, tag) :: rest => if k = dv then some tag else lookupTable rest (some dv)

/-- auto_init_HashpipeStatusBuffer: iterate PROPERTY_FGET_CLASS_MAP; apply
each property fget to the keyvalues dict (an exception from the fget
propagates: the source has no handler around the call); if the returned
value is a key of that entry table, construct and return the matching
class over the same keyvalues; otherwise fall through and finally return
the keyvalues dict itself. -/
def auto_init_HashpipeStatusBuffer (registry : List SchemaRegistryEntry)
    (keyvalues : Mapping) : Except Unit ClassifyResult :=
  match registry with
  | [] => .ok (.raw keyvalues)
  | e :: rest =>
    match e.fget keyvalues with
    | .error u => .error u
    | .ok pv =>
      match lookupTable e.table pv with
      | some tag => .ok (.specialized tag keyvalues)
      | none => auto_init_HashpipeStatusBuffer rest keyvalues

deriving instance DecidableEq for Except

/-- How a parse_buffer call can raise. -/
inductive ParseError where
  | recordDecodeError (raw : List Nat)
  | malformedRecord (record : List Char)
  | valueIndexError
  | outOfBounds
  | extractorError
deriving DecidableEq

/-- The record-reading loop of parse_buffer: read the 80-byte slice at the
current offset, decode it (RuntimeError on failure), stop on the sentinel,
split at the first equals sign (ValueError when absent), decode the value
(IndexError when the stripped value is empty), store under the stripped
key, advance by 80 bytes.  The source reads through a raw pointer with no
bounds; a segment exhausted before the sentinel means the real code reads
past the mapped region, modelled by the outOfBounds error.  The fuel
argument makes the while loop structurally recursive: each iteration
consumes 80 bytes, so any fuel exceeding length / 80 gives the loop
meaning; parseLoop_fuel below shows the result does not depend on the
choice of sufficient fuel, and the fuel-exhaustion branch is unreachable
for such fuel. -/
def parseLoop (fuel : Nat) (buf : List Nat) (acc : Mapping) : Except ParseError Mapping :=
  match fuel with
  | 0 => .error .outOfBounds
  | fuel + 1 =>
    if buf.length < 80 then .error .outOfBounds
    else
      let record := buf.take 80
      match utf8Decode record with
      | none => .error (.recordDecodeError record)
      | some cs =>
        if cs = END_RECORD then .ok acc
        else
          match splitFirst cs '=' with
          | none => .error (.malformedRecord cs)
          | some (key, value) =>
            match decode_value value with
            | none => .error .valueIndexError
            | some dv => parseLoop fuel (buf.drop 80) (dictInsert acc (pyStrip key) dv)

/-- The record loop with its canonical (always sufficient) fuel. -/
def parse_keyvalues (buf : List Nat) (acc : Mapping) : Except ParseError Mapping :=
  parseLoop (buf.length + 1) buf acc

/-- The loop result is independent of the fuel once the fuel covers the
number of 80-byte strides the buffer can hold. -/
theorem parseLoop_fuel (f1 f2 : Nat) (buf : List Nat) (acc : Mapping)
    (h1 : buf.length ≤ 80 * f1) (h2 : buf.length ≤ 80 * f2) :
    parseLoop f1 buf acc = parseLoop f2 buf acc := by
  induction f1 generalizing f2 buf acc with
  | zero =>
    have hb : buf.length = 0 := by omega
    cases f2 with
    | zero => rfl
    | succ m =>
      simp only [parseLoop]
      rw [if_pos (by omega)]
  | succ k ih =>
    cases f2 with
    | zero =>
      have hb : buf.length = 0 := by omega
      simp only [parseLoop]
      rw [if_pos (by omega)]
    | succ m =>
      simp only [parseLoop]
      by_cases hlen : buf.length < 80
      · rw [if_pos hlen, if_pos hlen]
      · rw [if_neg hlen, if_neg hlen]
        cases utf8Decode (buf.take 80) with
        | none => rfl
        | some cs =>
          simp only
          by_cases hend : cs = END_RECORD
          · rw [if_pos hend, if_pos hend]
          · rw [if_neg hend, if_neg hend]
            cases splitFirst cs '=' with
            | none => rfl
            | some kv =>
              obtain ⟨key, value⟩ := kv
              simp only
              cases decode_value value with
              | none => rfl
              | some dv =>
                exact ih m (buf.drop 80) _
                  (by simp only [List.length_drop]; omega)
                  (by simp only [List.length_drop]; omega)

/-- HashpipeStatusSharedMemoryIPC.parse_buffer: run the record loop from
offset 0 with an empty dict, then hand the dict to
auto_init_HashpipeStatusBuffer (whose registry is passed explicitly here
because its contents come from the external mixin package). -/
def parse_buffer (registry : List SchemaRegistryEntry) (buf : List Nat) :
    Except ParseError ClassifyResult :=
  match parse_keyvalues buf [] with
  | .error e => .error e
  | .ok keyvalues =>
    match auto_init_HashpipeStatusBuffer registry keyvalues with
    | .error _ => .error .extractorError
    | .ok res => .ok res

/-- The key and decoded value a well-formed record contributes. -/
def recordKV (r : List Nat) : List Char × DecodedValue :=
  match splitFirst (asciiDecode r) '=' with
  | some (key, value) => (pyStrip key, (decode_value value).getD (.str []))
  | none => ([], .str [])

/-- A well-formed (non-sentinel) record: 80 ASCII bytes, not the sentinel,
containing an equals sign, with a value that survives decoding (its
stripped text is non-empty, ruling out the IndexError of decode_value). -/
def wfRecord (r : List Nat) : Bool :=
  r.length = 80 && r.all (· < 0x80) &&
  asciiDecode r ≠ END_RECORD &&
  (match splitFirst (asciiDecode r) '=' with
   | some (_, value) => !(pyStrip value).isEmpty
   | none => false)

/-- An 80-byte record with the given key and value text, padded with
spaces (used for concrete segments in the witnesses). -/
def mkRecord (key value : List Char) : List Nat :=
  asciiEncode (key ++ '=' :: value ++ List.replicate (79 - key.length - value.length) ' ')

/-- struct timespec as filled in by __init__. -/
structure TimeSpec where
  tv_sec : Int
  tv_nsec : Int
deriving DecidableEq

/-- The seconds figure reported by the RuntimeWarning message:
tv_sec + tv_nsec * 1e-9 (the float product modelled as the exact decimal
value; the claims only involve exactly representable figures). -/
def TimeSpec.seconds (ts : TimeSpec) : Rat :=
  Rat.divInt (ts.tv_sec * 1000000000 + ts.tv_nsec) 1000000000

/-- __init__ timeout handling: lock_timeout_timespec stays None unless
lock_timeout_s is given and positive, in which case tv_sec = int(s) and
tv_nsec = int((s % 1) * 1e9).  For positive s the int() truncations
coincide with floors; the Python number s is modelled as the exact decimal
rational it denotes. -/
def initLockTimeout (lock_timeout_s : Option Rat) : Option TimeSpec :=
  match lock_timeout_s with
  | none => none
  | some s =>
    if 0 < s then some ⟨⌊s⌋, ⌊(s - (⌊s⌋ : Rat)) * 1000000000⌋⟩
    else none

/-- The default value of the lock_timeout_s parameter of __init__. -/
def default_lock_timeout_s : Option Rat := some 5

/-- Observable events of one with-statement use of the handle. -/
inductive LockEv where
  | lockBlocking
  | lockTimed
  | bodyStart
  | unlock
deriving DecidableEq

/-- How one with-statement use of the handle terminates. -/
inductive WithLockOutcome where
  | ok
  | lockTimeout (seconds : Rat)
  | bodyError
deriving DecidableEq

/-- __enter__: with no timespec stored, one call of the blocking
hashpipe_status_lock; with a timespec stored, one call of
hashpipe_status_lock_timeout, raising RuntimeWarning with the configured
seconds when it returns non-zero (the some component). -/
def enterEvents (ts? : Option TimeSpec) (timedRv : Int) : List LockEv × Option Rat :=
  match ts? with
  | none => ([.lockBlocking], none)
  | some ts =>
    if timedRv ≠ 0 then ([.lockTimed], some ts.seconds)
    else ([.lockTimed], none)

/-- __exit__: one unconditional hashpipe_status_unlock call. -/
def exitEvents : List LockEv := [.unlock]

/-- One with-statement over the handle, following the Python semantics of
with: if __enter__ raises, the body and __exit__ never run and the
exception surfaces; otherwise the body runs, __exit__ always runs
afterwards (also when the body raised), and __exit__ returning None lets a
body exception propagate.  timedRv is the return of the timed-lock
primitive (consulted only when a timespec is stored); bodyRaises tells
whether the body raises. -/
def withLock (ts? : Option TimeSpec) (timedRv : Int) (bodyRaises : Bool) :
    List LockEv × WithLockOutcome :=
  match enterEvents ts? timedRv with
  | (evs, some secs) => (evs, .lockTimeout secs)
  | (evs, none) =>
    (evs ++ [.bodyStart] ++ exitEvents, if bodyRaises then .bodyError else .ok)

/-- Lock events that stand for a successful acquisition: the blocking
primitive only returns once the lock is held; the timed primitive acquired
the lock exactly when it returned zero. -/
def isAcquiredLock (timedRv : Int) : LockEv → Bool
  | .lockBlocking => true
  | .lockTimed => timedRv = 0
  | _ => false

/-- Native calls made over a handle lifetime. -/
inductive NativeCall where
  | attach
  | detach
deriving DecidableEq

/-- How __init__ terminates. -/
inductive InitOutcome where
  | ok
  | assertionError
  | attachError
deriving DecidableEq

/-- __init__: assert libhashpipe is loaded (AssertionError before any
native call when it is not), then call hashpipe_status_attach, raising
RuntimeError when it returns non-zero. -/
def init_calls (libLoaded : Bool) (attachRv : Int) : List NativeCall × InitOutcome :=
  if !libLoaded then ([], .assertionError)
  else if attachRv ≠ 0 then ([.attach], .attachError)
  else ([.attach], .ok)

/-- __del__: return immediately when libhashpipe is None, else call
hashpipe_status_detach. -/
def del_calls (libLoaded : Bool) : List NativeCall :=
  if libLoaded then [.detach] else []

/-- Native calls over the whole life of a handle object.  CPython runs
__del__ when the last reference to the instance is dropped even when
__init__ raised, because the instance itself was already created by
__new__ before __init__ ran; so the finalizer calls always follow the
constructor calls, whatever the constructor outcome. -/
def handleLifetime (libLoaded : Bool) (attachRv : Int) : List NativeCall × InitOutcome :=
  ((init_calls libLoaded attachRv).1 ++ del_calls libLoaded,
   (init_calls libLoaded attachRv).2)

example : withLock none 0 true = ([.lockBlocking, .bodyStart, .unlock], .bodyError) := by decide
example : withLock (some ⟨5, 0⟩) 1 false = ([.lockTimed], .lockTimeout (Rat.divInt 5 1)) := by
  decide
example : handleLifetime true 0 = ([.attach, .detach], .ok) := by decide
example : handleLifetime false 0 = ([], .assertionError) := by decide

example : wfRecord (mkRecord ['P', 'U', 'L', 'S', 'E'] ['1']) = true := by decide
example : (mkRecord ['P', 'U', 'L', 'S', 'E'] ['1']).length = 80 := by decide
example : recordKV (mkRecord ['P', 'U', 'L', 'S', 'E'] ['1']) =
    (['P', 'U', 'L', 'S', 'E'], .int 1) := by decide
example : utf8Decode END_RECORD_BYTES = some END_RECORD := by decide
example : parse_keyvalues END_RECORD_BYTES [] = .ok [] := by decide

/-- ASCII-only byte sequences decode to their character-for-byte text. -/
theorem utf8Decode_ascii (r : List Nat) (h : ∀ b ∈ r, b < 0x80) :
    utf8Decode r = some (asciiDecode r) := by
  unfold utf8Decode
  induction r with
  | nil => rfl
  | cons b rest ih =>
    have hb : b < 0x80 := h b (List.mem_cons_self b rest)
    have hrest := ih (fun x hx => h x (List.mem_cons_of_mem b hx))
    have hone : utf8DecodeOne b rest = some (Char.ofNat b, 0) := by
      unfold utf8DecodeOne
      rw [if_pos hb]
    simp only [List.length_cons, utf8DecodeLoop, hone, List.drop_zero, hrest,
      Option.map_some', asciiDecode, List.map_cons]

/-- The stripped value being non-empty rules out the IndexError branch of
decode_value. -/
theorem decode_value_isSome (v : List Char) (h : (pyStrip v).isEmpty = false) :
    ∃ dv, decode_value v = some dv := by
  unfold decode_value
  cases pyParseInt v with
  | some n => exact ⟨.int n, rfl⟩
  | none =>
    cases pyParseFloat v with
    | some f => exact ⟨.float f, rfl⟩
    | none =>
      simp only
      split
      · next heq => rw [heq] at h; simp [List.isEmpty] at h
      · next c rest heq =>
        split
        · exact ⟨_, rfl⟩
        · exact ⟨_, rfl⟩

/-- Looking a key up after a dict store. -/
theorem lookupKV_dictInsert (m : Mapping) (k : List Char) (v : DecodedValue)
    (k' : List Char) :
    lookupKV (dictInsert m k v) k' = if k = k' then some v else lookupKV m k' := by
  induction m with
  | nil => simp [dictInsert, lookupKV]
  | cons p rest ih =>
    obtain ⟨k0, v0⟩ := p
    by_cases h0 : k0 = k
    · subst h0
      simp only [dictInsert, if_pos rfl, lookupKV]
      by_cases h' : k0 = k'
      · simp [h']
      · simp [h']
    · simp only [dictInsert, if_neg h0, lookupKV, ih]
      by_cases h' : k0 = k'
      · have : ¬k = k' := fun hk => h0 (by rw [h', ← hk])
        simp [h', this]
      · simp [h']

/-- Keys after a dict store: an existing key keeps the key list unchanged,
a fresh key is appended. -/
theorem mapKeys_dictInsert (m : Mapping) (k : List Char) (v : DecodedValue) :
    mapKeys (dictInsert m k v) =
      if k ∈ mapKeys m then mapKeys m else mapKeys m ++ [k] := by
  induction m with
  | nil => simp [dictInsert, mapKeys]
  | cons p rest ih =>
    obtain ⟨k0, v0⟩ := p
    by_cases h0 : k0 = k
    · subst h0
      simp [dictInsert, mapKeys]
    · simp only [dictInsert, if_neg h0, mapKeys, List.map_cons] at ih ⊢
      rw [ih]
      have hne : ¬k = k0 := fun hk => h0 hk.symm
      by_cases hm : k ∈ List.map Prod.fst rest
      · simp [List.mem_cons, hm, hne]
      · simp [List.mem_cons, hm, hne]

/-- Dict stores keep the keys unique. -/
theorem nodup_dictInsert (m : Mapping) (k : List Char) (v : DecodedValue)
    (h : (mapKeys m).Nodup) : (mapKeys (dictInsert m k v)).Nodup := by
  rw [mapKeys_dictInsert]
  by_cases hm : k ∈ mapKeys m
  · rwa [if_pos hm]
  · rw [if_neg hm]
    simp [List.nodup_append, h, hm]

/-- Storing a fresh key appends the pair at the end, keeping insertion
order. -/
theorem dictInsert_fresh (m : Mapping) (k : List Char) (v : DecodedValue)
    (h : k ∉ mapKeys m) : dictInsert m k v = m ++ [(k, v)] := by
  induction m with
  | nil => rfl
  | cons p rest ih =>
    obtain ⟨k0, v0⟩ := p
    have h0 : ¬k0 = k := by
      intro hk
      exact h (by simp [mapKeys, hk])
    simp only [dictInsert, if_neg h0, List.cons_append, List.cons.injEq, true_and]
    exact ih (fun hm => h (by simp [mapKeys] at hm ⊢; exact Or.inr hm))

/-- Folding dict stores over a pair list, as the parse loop does. -/
def insertAll (acc : Mapping) (ps : List (List Char × DecodedValue)) : Mapping :=
  ps.foldl (fun m p => dictInsert m p.1 p.2) acc

/-- First-hit choice between two lookups. -/
def orElseO (a b : Option DecodedValue) : Option DecodedValue :=
  match a with
  | some v => some v
  | none => b

theorem lookupKV_append (m1 m2 : Mapping) (k : List Char) :
    lookupKV (m1 ++ m2) k = orElseO (lookupKV m1 k) (lookupKV m2 k) := by
  induction m1 with
  | nil => simp [lookupKV, orElseO]
  | cons p rest ih =>
    obtain ⟨k0, v0⟩ := p
    by_cases h0 : k0 = k
    · simp [lookupKV, h0, orElseO]
    · simp [lookupKV, h0, ih]

/-- Pairs with pairwise distinct keys, none already present, are appended
in order by the fold of dict stores. -/
theorem insertAll_fresh (ps : List (List Char × DecodedValue)) (acc : Mapping)
    (hnodup : (ps.map Prod.fst).Nodup)
    (hdisj : ∀ p ∈ ps, p.1 ∉ mapKeys acc) :
    insertAll acc ps = acc ++ ps := by
  induction ps generalizing acc with
  | nil => simp [insertAll]
  | cons p ps ih =>
    have hfresh : p.1 ∉ mapKeys acc := hdisj p (List.mem_cons_self p ps)
    have hstep : dictInsert acc p.1 p.2 = acc ++ [p] := by
      rw [dictInsert_fresh acc p.1 p.2 hfresh]
    have htail : insertAll (acc ++ [p]) ps = (acc ++ [p]) ++ ps := by
      apply ih
      · exact (List.nodup_cons.mp (by simpa using hnodup)).2
      · intro q hq
        have hq1 : q.1 ∉ mapKeys acc := hdisj q (List.mem_cons_of_mem p hq)
        have hq2 : q.1 ≠ p.1 := by
          intro heq
          have hp1 : p.1 ∉ ps.map Prod.fst := (List.nodup_cons.mp (by simpa using hnodup)).1
          exact hp1 (by rw [← heq]; exact List.mem_map_of_mem Prod.fst hq)
        rw [show mapKeys (acc ++ [p]) = mapKeys acc ++ [p.1] by simp [mapKeys]]
        intro hmem
        rcases List.mem_append.mp hmem with hmem | hmem
        · exact hq1 hmem
        · exact hq2 (by simpa using hmem)
    calc insertAll acc (p :: ps) = insertAll (dictInsert acc p.1 p.2) ps := by
          simp [insertAll, List.foldl_cons]
      _ = (acc ++ [p]) ++ ps := by rw [hstep]; exact htail
      _ = acc ++ p :: ps := by simp

/-- The fold of dict stores keeps keys unique. -/
theorem nodup_insertAll (ps : List (List Char × DecodedValue)) (acc : Mapping)
    (h : (mapKeys acc).Nodup) : (mapKeys (insertAll acc ps)).Nodup := by
  induction ps generalizing acc with
  | nil => simpa [insertAll]
  | cons p ps ih =>
    have : insertAll acc (p :: ps) = insertAll (dictInsert acc p.1 p.2) ps := by
      simp [insertAll, List.foldl_cons]
    rw [this]
    exact ih _ (nodup_dictInsert acc p.1 p.2 h)

/-- After the fold of dict stores, a lookup sees the LAST pair with the
queried key (Python last-write-wins), and the initial dict below that. -/
theorem lookupKV_insertAll (ps : List (List Char × DecodedValue)) (acc : Mapping)
    (k : List Char) :
    lookupKV (insertAll acc ps) k = orElseO (lookupKV ps.reverse k) (lookupKV acc k) := by
  induction ps generalizing acc with
  | nil => simp [insertAll, lookupKV, orElseO]
  | cons p ps ih =>
    have hstep : insertAll acc (p :: ps) = insertAll (dictInsert acc p.1 p.2) ps := by
      simp [insertAll, List.foldl_cons]
    rw [hstep, ih, List.reverse_cons, lookupKV_append]
    cases hlast : lookupKV ps.reverse k with
    | some v => simp [orElseO]
    | none =>
      simp only [orElseO]
      rw [lookupKV_dictInsert]
      by_cases hk : p.1 = k
      · simp [lookupKV, hk]
      · simp [lookupKV, hk]

/-- Reading the sentinel record stops the loop and returns the dict
accumulated so far. -/
theorem parseLoop_end (f : Nat) (acc : Mapping) :
    parseLoop (f + 1) END_RECORD_BYTES acc = .ok acc := by
  have hlen : ¬END_RECORD_BYTES.length < 80 := by decide
  have hdec : utf8Decode (END_RECORD_BYTES.take 80) = some END_RECORD := by decide
  simp only [parseLoop, if_neg hlen, hdec, if_pos]

/-- The record loop on a segment holding just the sentinel succeeds with
whatever was accumulated. -/
theorem parse_keyvalues_end (acc : Mapping) :
    parse_keyvalues END_RECORD_BYTES acc = .ok acc := by
  unfold parse_keyvalues
  exact parseLoop_end _ acc

/-- Unpacking of the wfRecord well-formedness check. -/
theorem wfRecord_parts (r : List Nat) (h : wfRecord r = true) :
    r.length = 80 ∧ (∀ b ∈ r, b < 0x80) ∧ asciiDecode r ≠ END_RECORD ∧
      ∃ key value dv, splitFirst (asciiDecode r) '=' = some (key, value) ∧
        decode_value value = some dv ∧ recordKV r = (pyStrip key, dv) := by
  unfold wfRecord at h
  simp only [Bool.and_eq_true, decide_eq_true_eq, List.all_eq_true] at h
  obtain ⟨⟨⟨hlen, hascii⟩, hne⟩, hmatch⟩ := h
  refine ⟨hlen, fun b hb => hascii b hb, hne, ?_⟩
  cases hsp : splitFirst (asciiDecode r) '=' with
  | none => rw [hsp] at hmatch; simp at hmatch
  | some kv =>
    obtain ⟨key, value⟩ := kv
    rw [hsp] at hmatch
    simp only [Bool.not_eq_true'] at hmatch
    obtain ⟨dv, hdv⟩ := decode_value_isSome value hmatch
    refine ⟨key, value, dv, rfl, hdv, ?_⟩
    unfold recordKV
    rw [hsp]
    simp only [hdv, Option.getD_some]

/-- One well-formed record at the front of the segment: the loop stores its
key/value pair and moves to the remaining bytes. -/
theorem parse_keyvalues_cons (r rest : List Nat) (acc : Mapping)
    (hwf : wfRecord r = true) :
    parse_keyvalues (r ++ rest) acc =
      parse_keyvalues rest (dictInsert acc (recordKV r).1 (recordKV r).2) := by
  obtain ⟨hlen, hascii, hne, key, value, dv, hsp, hdv, hkv⟩ := wfRecord_parts r hwf
  have hlen2 : ¬(r ++ rest).length < 80 := by
    simp only [List.length_append, hlen]; omega
  have htake : (r ++ rest).take 80 = r := by
    rw [← hlen]; exact List.take_left r rest
  have hdrop : (r ++ rest).drop 80 = rest := by
    rw [← hlen]; exact List.drop_left r rest
  have hdec : utf8Decode ((r ++ rest).take 80) = some (asciiDecode r) := by
    rw [htake]; exact utf8Decode_ascii r hascii
  have key_eq : parse_keyvalues (r ++ rest) acc =
      parseLoop ((r ++ rest).length) rest (dictInsert acc (pyStrip key) dv) := by
    unfold parse_keyvalues
    simp only [parseLoop, if_neg hlen2, hdec, if_neg hne, hsp, hdv, hdrop]
  rw [key_eq, hkv]
  dsimp only
  unfold parse_keyvalues
  apply parseLoop_fuel
  · simp only [List.length_append, hlen]; omega
  · omega

/-- The loop over a run of well-formed records folds their key/value pairs
into the dict and continues with the remaining bytes. -/
theorem parse_keyvalues_append (recs : List (List Nat)) (tail : List Nat)
    (acc : Mapping) (hwf : ∀ r ∈ recs, wfRecord r = true) :
    parse_keyvalues (recs.flatten ++ tail) acc =
      parse_keyvalues tail (insertAll acc (recs.map recordKV)) := by
  induction recs generalizing acc with
  | nil => simp [List.flatten, insertAll]
  | cons r recs ih =>
    have hr : wfRecord r = true := hwf r (List.mem_cons_self r recs)
    have hrest : ∀ x ∈ recs, wfRecord x = true :=
      fun x hx => hwf x (List.mem_cons_of_mem r hx)
    have hassoc : (r :: recs).flatten ++ tail = r ++ (recs.flatten ++ tail) := by
      simp [List.flatten]
    rw [hassoc, parse_keyvalues_cons r (recs.flatten ++ tail) acc hr, ih _ hrest]
    rfl

/-- A sentinel-terminated run of well-formed records parses into the fold
of their key/value pairs. -/
theorem parse_keyvalues_records (recs : List (List Nat)) (acc : Mapping)
    (hwf : ∀ r ∈ recs, wfRecord r = true) :
    parse_keyvalues (recs.flatten ++ END_RECORD_BYTES) acc =
      .ok (insertAll acc (recs.map recordKV)) := by
  rw [parse_keyvalues_append recs END_RECORD_BYTES acc hwf, parse_keyvalues_end]

/-- When every fget of the registry returns normally,
auto_init_HashpipeStatusBuffer returns normally, and the result exposes
exactly the key/value pairs it was given. -/
theorem auto_init_ok (registry : List SchemaRegistryEntry) (kv : Mapping)
    (h : ∀ e ∈ registry, ∃ pv, e.fget kv = .ok pv) :
    ∃ res, auto_init_HashpipeStatusBuffer registry kv = .ok res ∧
      res.keyvalues = kv := by
  induction registry with
  | nil => exact ⟨.raw kv, rfl, rfl⟩
  | cons e rest ih =>
    obtain ⟨pv, hpv⟩ := h e (List.mem_cons_self e rest)
    simp only [auto_init_HashpipeStatusBuffer, hpv]
    cases htag : lookupTable e.table pv with
    | some tag => exact ⟨.specialized tag kv, rfl, rfl⟩
    | none => exact ih (fun e' he' => h e' (List.mem_cons_of_mem e he'))

/-- The string branch of value decoding as the amended claim states it:
trim white-space, and when the trimmed text both starts and ends with a
single-quote character, strip exactly one quote from each end and trim
again. -/
def stripQuotes (t : List Char) : List Char :=
  if t.head? = some squote ∧ t.getLast? = some squote then pyStrip (t.drop 1).dropLast
  else t

/-- Claim C2 counterexample: decoding is not total over every value
substring: on a value made of white-space only (as the value of a record
KEY= padded with spaces), int() and float() both fail and the stripped
string is empty, so v[0] raises an uncaught IndexError; the claimed
int/float/string result never materialises. -/
theorem decode_value_not_total :
    decode_value (List.replicate 76 ' ') = none := by decide

/-- Claim C2 (amended): over every value substring whose stripped text is
non-empty, decoding is total and deterministic: the integer when integer
parsing succeeds, else the float when float parsing succeeds, else the
trimmed string with one pair of enclosing single quotes removed; and the
five quoted examples decode as claimed. -/
theorem decode_value_spec :
    (∀ v : List Char, (pyStrip v).isEmpty = false →
      (∀ n, pyParseInt v = some n → decode_value v = some (.int n)) ∧
      (pyParseInt v = none → ∀ f, pyParseFloat v = some f →
        decode_value v = some (.float f)) ∧
      (pyParseInt v = none → pyParseFloat v = none →
        decode_value v = some (.str (stripQuotes (pyStrip v))))) ∧
    decode_value ['3'] = some (.int 3) ∧
    decode_value ['3', '.', '5'] = some (.float (.finite (7 / 2))) ∧
    decode_value [squote, 'a', 'b', 'c', squote] = some (.str ['a', 'b', 'c']) ∧
    decode_value ['a', 'b', 'c'] = some (.str ['a', 'b', 'c']) ∧
    decode_value [' ', ' ', squote, 'a', 'b', 'c', squote, ' '] =
      some (.str ['a', 'b', 'c']) := by
  refine ⟨?_, by decide, ?_, by decide, by decide, by decide⟩
  · intro v hne
    refine ⟨?_, ?_, ?_⟩
    · intro n hn
      unfold decode_value
      rw [hn]
    · intro hint f hf
      unfold decode_value
      rw [hint, hf]
    · intro hint hfloat
      unfold decode_value
      rw [hint, hfloat]
      cases hs : pyStrip v with
      | nil => rw [hs] at hne; simp at hne
      | cons c rest =>
        have hlast : (c :: rest).getLast? = some ((c :: rest).getLast (by simp)) :=
          List.getLast?_eq_getLast _ (by simp)
        dsimp only
        by_cases hc1 : c = squote
        · by_cases hc2 : (c :: rest).getLast (by simp) = squote
          · rw [if_pos (by simp only [Bool.and_eq_true, decide_eq_true_eq]; exact ⟨hc1, hc2⟩)]
            unfold stripQuotes
            rw [if_pos ⟨by simp [hc1], by rw [hlast, hc2]⟩]
          · rw [if_neg (by
              simp only [Bool.and_eq_true, decide_eq_true_eq, not_and]
              exact fun _ h2 => hc2 h2)]
            unfold stripQuotes
            rw [if_neg (fun hcon => hc2 (by
              rw [hlast] at hcon
              exact Option.some_inj.mp hcon.2))]
        · rw [if_neg (by
            simp only [Bool.and_eq_true, decide_eq_true_eq, not_and]
            exact fun h1 _ => hc1 h1)]
          unfold stripQuotes
          rw [if_neg (fun hcon => hc1 (by simpa using hcon.1))]
  · have h1 : decode_value ['3', '.', '5'] =
        some (.float (.finite (Rat.divInt 7 2))) := by decide
    have h2 : Rat.divInt 7 2 = 7 / 2 := by rw [Rat.divInt_eq_div]; norm_num
    rw [h1, h2]

/-- Witness for the amended claim C2 at the concrete value xy. -/
theorem decode_value_spec_witness :
    (pyStrip ['x', 'y']).isEmpty = false ∧
    decode_value ['x', 'y'] = some (.str (stripQuotes (pyStrip ['x', 'y']))) :=
  ⟨by decide, (decode_value_spec.1 ['x', 'y'] (by decide)).2.2 (by decide) (by decide)⟩

/-- A concrete discriminator key (TELESCOP) for the witnesses. -/
def exTelescopKey : List Char := ['T', 'E', 'L', 'E', 'S', 'C', 'O', 'P']

/-- A concrete registered discriminator value for the witnesses. -/
def exAtaStr : List Char := ['A', 'T', 'A']

/-- A concrete discriminator extractor: d.get(TELESCOP), never raising. -/
def exFget (kv : Mapping) : Except Unit (Option DecodedValue) :=
  .ok (lookupKV kv exTelescopKey)

/-- A concrete registration table mapping the ATA discriminator value to
the ATA class. -/
def exTable : List (DecodedValue × SchemaTag) := [(.str exAtaStr, .ata)]

/-- A concrete one-entry registry, shaped like PROPERTY_FGET_CLASS_MAP. -/
def exRegistry : List SchemaRegistryEntry := [⟨exFget, exTable⟩]

/-- Claim C4: with the discriminator extractor returning a registered
value, auto_init_HashpipeStatusBuffer returns the specialized view of the
registered class carrying exactly the input pairs; with it returning an
unregistered (or absent) value, the raw mapping comes back unchanged. -/
theorem auto_init_classifies (fget : Mapping → Except Unit (Option DecodedValue))
    (table : List (DecodedValue × SchemaTag)) (kv : Mapping) :
    (∀ dv tag, fget kv = .ok (some dv) → lookupTable table (some dv) = some tag →
      auto_init_HashpipeStatusBuffer [⟨fget, table⟩] kv = .ok (.specialized tag kv) ∧
      (ClassifyResult.specialized tag kv).keyvalues = kv) ∧
    (∀ pv, fget kv = .ok pv → lookupTable table pv = none →
      auto_init_HashpipeStatusBuffer [⟨fget, table⟩] kv = .ok (.raw kv) ∧
      (ClassifyResult.raw kv).keyvalues = kv) := by
  constructor
  · intro dv tag hget htag
    refine ⟨?_, rfl⟩
    unfold auto_init_HashpipeStatusBuffer
    simp only [hget, htag]
  · intro pv hget htag
    refine ⟨?_, rfl⟩
    unfold auto_init_HashpipeStatusBuffer
    simp only [hget, htag]
    rfl

/-- Witness for claim C4: a mapping carrying TELESCOP = ATA is wrapped in
the ATA view; one carrying an unregistered telescope value comes back raw. -/
theorem auto_init_classifies_witness :
    (exFget [(exTelescopKey, .str exAtaStr)] = .ok (some (.str exAtaStr)) ∧
     lookupTable exTable (some (.str exAtaStr)) = some .ata ∧
     auto_init_HashpipeStatusBuffer [⟨exFget, exTable⟩] [(exTelescopKey, .str exAtaStr)] =
       .ok (.specialized .ata [(exTelescopKey, .str exAtaStr)])) ∧
    (exFget [(exTelescopKey, .str ['V', 'L', 'A'])] = .ok (some (.str ['V', 'L', 'A'])) ∧
     lookupTable exTable (some (.str ['V', 'L', 'A'])) = none ∧
     auto_init_HashpipeStatusBuffer [⟨exFget, exTable⟩] [(exTelescopKey, .str ['V', 'L', 'A'])] =
       .ok (.raw [(exTelescopKey, .str ['V', 'L', 'A'])])) :=
  ⟨⟨by decide, by decide,
    ((auto_init_classifies exFget exTable [(exTelescopKey, .str exAtaStr)]).1
      (.str exAtaStr) .ata (by decide) (by decide)).1⟩,
   ⟨by decide, by decide,
    ((auto_init_classifies exFget exTable [(exTelescopKey, .str ['V', 'L', 'A'])]).2
      (some (.str ['V', 'L', 'A'])) (by decide) (by decide)).1⟩⟩

/-- Claim C5 counterexample: classification is not failure-proof: the
source applies each registered property fget with no exception handler, so
an extractor that raises makes auto_init_HashpipeStatusBuffer raise
instead of degrading to the raw mapping. -/
theorem auto_init_propagates_extractor_error :
    auto_init_HashpipeStatusBuffer [⟨fun _ => .error (), []⟩] [] = .error () := rfl

/-- Claim C5 (amended): classification never fails as long as every
registered extractor returns normally: an absent (None) or unregistered
discriminator value silently falls back to the raw mapping; only an
exception raised by an extractor itself propagates. -/
theorem auto_init_never_fails (registry : List SchemaRegistryEntry) (kv : Mapping)
    (h : ∀ e ∈ registry, ∃ pv, e.fget kv = .ok pv ∧ lookupTable e.table pv = none) :
    auto_init_HashpipeStatusBuffer registry kv = .ok (.raw kv) := by
  induction registry with
  | nil => rfl
  | cons e rest ih =>
    obtain ⟨pv, hpv, htag⟩ := h e (List.mem_cons_self e rest)
    unfold auto_init_HashpipeStatusBuffer
    simp only [hpv, htag]
    exact ih (fun e' he' => h e' (List.mem_cons_of_mem e he'))

/-- Witness for the amended claim C5: a mapping without the TELESCOP key
classifies to itself without error. -/
theorem auto_init_never_fails_witness :
    (∀ e ∈ exRegistry, ∃ pv, e.fget [] = .ok pv ∧ lookupTable e.table pv = none) ∧
    auto_init_HashpipeStatusBuffer exRegistry [] = .ok (.raw []) :=
  ⟨fun e he => by
    simp only [exRegistry, List.mem_singleton] at he
    subst he
    exact ⟨none, by decide, by decide⟩,
   auto_init_never_fails exRegistry []
    (fun e he => by
      simp only [exRegistry, List.mem_singleton] at he
      subst he
      exact ⟨none, by decide, by decide⟩)⟩

/-- Claim C8: a lock_timeout passed as None or as a non-positive number
stores no timespec, and lock acquisition then uses the untimed blocking
primitive: one blocking lock, the body, one unlock, and the timed
primitive is never consulted. -/
theorem lock_timeout_validation (t : Option Rat)
    (h : t = none ∨ ∃ s, t = some s ∧ s ≤ 0) :
    initLockTimeout t = none ∧
    ∀ rv bodyRaises, (withLock (initLockTimeout t) rv bodyRaises).1 =
      [.lockBlocking, .bodyStart, .unlock] := by
  have hnone : initLockTimeout t = none := by
    rcases h with rfl | ⟨s, rfl, hs⟩
    · rfl
    · unfold initLockTimeout
      dsimp only
      rw [if_neg (not_lt.mpr hs)]
  refine ⟨hnone, fun rv bodyRaises => ?_⟩
  rw [hnone]
  rfl

/-- Witness for claim C8 at lock_timeout -1. -/
theorem lock_timeout_validation_witness :
    ((some (-1) : Option Rat) = none ∨ ∃ s, (some (-1) : Option Rat) = some s ∧ s ≤ 0) ∧
    initLockTimeout (some (-1)) = none ∧
    (withLock (initLockTimeout (some (-1))) 1 true).1 =
      [.lockBlocking, .bodyStart, .unlock] :=
  ⟨Or.inr ⟨-1, rfl, by norm_num⟩,
   (lock_timeout_validation (some (-1)) (Or.inr ⟨-1, rfl, by norm_num⟩)).1,
   (lock_timeout_validation (some (-1)) (Or.inr ⟨-1, rfl, by norm_num⟩)).2 1 true⟩

/-- Claim C10: with the lock_timeout argument left at its default, the
handle stores the 5-second timespec (tv_sec 5, tv_nsec 0): acquisition
uses the timed primitive, never the blocking one, and a non-zero return
from it surfaces the lock-timeout error carrying 5 seconds. -/
theorem default_timeout_timed_5s :
    initLockTimeout default_lock_timeout_s = some ⟨5, 0⟩ ∧
    (∀ rv bodyRaises,
      LockEv.lockBlocking ∉ (withLock (initLockTimeout default_lock_timeout_s) rv bodyRaises).1 ∧
      LockEv.lockTimed ∈ (withLock (initLockTimeout default_lock_timeout_s) rv bodyRaises).1) ∧
    (∀ rv bodyRaises, rv ≠ 0 →
      withLock (initLockTimeout default_lock_timeout_s) rv bodyRaises =
        ([.lockTimed], .lockTimeout 5)) := by
  have hinit : initLockTimeout default_lock_timeout_s = some ⟨5, 0⟩ := by
    unfold initLockTimeout default_lock_timeout_s
    dsimp only
    rw [if_pos (by norm_num)]
    have h5 : ⌊(5 : Rat)⌋ = 5 := by norm_num
    rw [h5]
    norm_num
  have hsec : TimeSpec.seconds ⟨5, 0⟩ = 5 := by
    unfold TimeSpec.seconds
    rw [Rat.divInt_eq_div]
    norm_num
  refine ⟨hinit, fun rv bodyRaises => ?_, fun rv bodyRaises hrv => ?_⟩
  · rw [hinit]
    by_cases hrv : rv ≠ 0
    · have htr : (withLock (some ⟨5, 0⟩) rv bodyRaises).1 = [.lockTimed] := by
        unfold withLock enterEvents
        dsimp only
        rw [if_pos hrv]
      rw [htr]
      exact ⟨by decide, by decide⟩
    · have htr : (withLock (some ⟨5, 0⟩) rv bodyRaises).1 =
          [.lockTimed, .bodyStart, .unlock] := by
        unfold withLock enterEvents
        dsimp only
        rw [if_neg hrv]
        rfl
      rw [htr]
      exact ⟨by decide, by decide⟩
  · rw [hinit]
    unfold withLock enterEvents
    dsimp only
    rw [if_pos hrv, hsec]

/-- Witness for claim C10 with the timed primitive reporting failure. -/
theorem default_timeout_timed_5s_witness :
    initLockTimeout default_lock_timeout_s = some ⟨5, 0⟩ ∧
    (1 : Int) ≠ 0 ∧
    withLock (initLockTimeout default_lock_timeout_s) 1 false =
      ([.lockTimed], .lockTimeout 5) :=
  ⟨default_timeout_timed_5s.1, by decide,
   default_timeout_timed_5s.2.2 1 false (by decide)⟩

/-- Claim C3: with no timeout stored, every with-statement over the handle
makes exactly one blocking lock call and exactly one unlock call, even
when the body raises, and the outcome passes the body result through;
with a timeout stored and the timed primitive returning non-zero, the body
never starts, unlock is never called, and the lock-timeout error carrying
the configured seconds surfaces; and in every trace an unlock only ever
happens after an earlier successful acquisition. -/
theorem with_lock_pairing :
    (∀ (rv : Int) (bodyRaises : Bool),
      (withLock none rv bodyRaises).1.count .lockBlocking = 1 ∧
      (withLock none rv bodyRaises).1.count .unlock = 1 ∧
      (withLock none rv bodyRaises).2 =
        (if bodyRaises then .bodyError else .ok)) ∧
    (∀ (ts : TimeSpec) (rv : Int) (bodyRaises : Bool), rv ≠ 0 →
      withLock (some ts) rv bodyRaises = ([.lockTimed], .lockTimeout ts.seconds) ∧
      LockEv.bodyStart ∉ (withLock (some ts) rv bodyRaises).1 ∧
      LockEv.unlock ∉ (withLock (some ts) rv bodyRaises).1) ∧
    (∀ (ts? : Option TimeSpec) (rv : Int) (bodyRaises : Bool) (i : Nat),
      ((withLock ts? rv bodyRaises).1.get? i) = some .unlock →
      ∃ j, j < i ∧ ∃ e, (withLock ts? rv bodyRaises).1.get? j = some e ∧
        isAcquiredLock rv e = true) := by
  refine ⟨fun rv bodyRaises => ⟨rfl, rfl, rfl⟩, fun ts rv bodyRaises hrv => ?_, ?_⟩
  · have htr : withLock (some ts) rv bodyRaises = ([.lockTimed], .lockTimeout ts.seconds) := by
      unfold withLock enterEvents
      dsimp only
      rw [if_pos hrv]
    rw [htr]
    exact ⟨rfl, by simp, by simp⟩
  · intro ts? rv bodyRaises i hunlock
    match ts? with
    | none =>
      have htr : (withLock none rv bodyRaises).1 = [.lockBlocking, .bodyStart, .unlock] := rfl
      rw [htr] at hunlock ⊢
      match i with
      | 0 => exact absurd hunlock (by decide)
      | 1 => exact absurd hunlock (by decide)
      | 2 => exact ⟨0, by omega, .lockBlocking, rfl, rfl⟩
      | (k + 3) => simp [List.get?] at hunlock
    | some ts =>
      by_cases hrv : rv ≠ 0
      · have htr : (withLock (some ts) rv bodyRaises).1 = [.lockTimed] := by
          unfold withLock enterEvents
          dsimp only
          rw [if_pos hrv]
        rw [htr] at hunlock
        match i with
        | 0 => exact absurd hunlock (by decide)
        | (k + 1) => simp [List.get?] at hunlock
      · have hrv0 : rv = 0 := by omega
        subst hrv0
        have htr : (withLock (some ts) 0 bodyRaises).1 =
            [.lockTimed, .bodyStart, .unlock] := by
          unfold withLock enterEvents
          dsimp only
          rw [if_neg hrv]
          rfl
        rw [htr] at hunlock ⊢
        match i with
        | 0 => exact absurd hunlock (by decide)
        | 1 => exact absurd hunlock (by decide)
        | 2 => exact ⟨0, by omega, .lockTimed, rfl, by decide⟩
        | (k + 3) => simp [List.get?] at hunlock

/-- Witness for claim C3: the blocking path with a raising body, and the
timed path with the primitive reporting failure at a 5 second timespec. -/
theorem with_lock_pairing_witness :
    ((withLock none 0 true).1.count .lockBlocking = 1 ∧
     (withLock none 0 true).1.count .unlock = 1 ∧
     (withLock none 0 true).2 = (if true then .bodyError else .ok)) ∧
    (1 : Int) ≠ 0 ∧
    withLock (some ⟨5, 0⟩) 1 false = ([.lockTimed], .lockTimeout (TimeSpec.seconds ⟨5, 0⟩)) :=
  ⟨with_lock_pairing.1 0 true, by decide,
   (with_lock_pairing.2.1 ⟨5, 0⟩ 1 false (by decide)).1⟩

/-- Claim C9: the spec requires the native detach to run exactly once per
successful attach, never for a handle whose attach did not succeed, and to
be a no-op when the library was never loaded.  The code keeps the last two
guarantees only partially: __del__ checks that libhashpipe is loaded but
not that attach succeeded, and CPython finalises an instance whose
__init__ raised (the instance already exists after __new__), so a handle
whose hashpipe_status_attach returned non-zero still gets
hashpipe_status_detach called on it at finalisation — the evaluation below
exhibits the failing run next to the two conforming ones. -/
theorem detach_runs_after_failed_attach :
    handleLifetime true 1 = ([.attach, .detach], .attachError) ∧
    handleLifetime false 0 = ([], .assertionError) ∧
    handleLifetime true 0 = ([.attach, .detach], .ok) := by
  refine ⟨?_, rfl, ?_⟩ <;> decide

/-- A concrete TELESCOP record carrying the quoted ATA value. -/
def exRec1 : List Nat := mkRecord exTelescopKey (squote :: 'A' :: 'T' :: 'A' :: [squote])

/-- A concrete PULSE record carrying the integer 1. -/
def exRec2 : List Nat := mkRecord ['P', 'U', 'L', 'S', 'E'] ['1']

/-- A concrete PULSE record carrying the integer 2, for the duplicate-key
witness. -/
def exRec3 : List Nat := mkRecord ['P', 'U', 'L', 'S', 'E'] ['2']

/-- An 80-byte record whose bytes are not valid UTF-8 (lead byte 0xFF). -/
def exBadBytes : List Nat := 0xFF :: List.replicate 79 0x20

/-- An 80-byte ASCII record with no equals sign. -/
def exBadNoEq : List Nat := asciiEncode ('B' :: 'A' :: 'D' :: List.replicate 77 ' ')

/-- Claim C1: a segment of well-formed 80-byte records with pairwise
distinct keys, terminated by the sentinel, parses into exactly those
key/value pairs in record order (keys trimmed, values decoded), with the
sentinel absent, succeeding even when the sentinel comes first (empty
mapping); the classification pass the source applies to the result keeps
the pairs unchanged (its external extractors are assumed to return, which
the spec guarantees of them). -/
theorem parse_buffer_wellformed (recs : List (List Nat))
    (registry : List SchemaRegistryEntry)
    (hwf : ∀ r ∈ recs, wfRecord r = true)
    (hkeys : ((recs.map recordKV).map Prod.fst).Nodup)
    (hfget : ∀ e ∈ registry, ∃ pv, e.fget (recs.map recordKV) = .ok pv) :
    ∃ res, parse_buffer registry (recs.flatten ++ END_RECORD_BYTES) = .ok res ∧
      res.keyvalues = recs.map recordKV := by
  have hloop := parse_keyvalues_records recs [] hwf
  have hins : insertAll [] (recs.map recordKV) = recs.map recordKV := by
    have h := insertAll_fresh (recs.map recordKV) [] hkeys (fun p _ => by simp [mapKeys])
    simpa using h
  rw [hins] at hloop
  obtain ⟨res, hres, hkv⟩ := auto_init_ok registry (recs.map recordKV) hfget
  refine ⟨res, ?_, hkv⟩
  unfold parse_buffer
  simp only [hloop, hres]

/-- Witness for claim C1: TELESCOP and PULSE records followed by the
sentinel, and the sentinel-only segment. -/
theorem parse_buffer_wellformed_witness :
    (∀ r ∈ [exRec1, exRec2], wfRecord r = true) ∧
    (([exRec1, exRec2].map recordKV).map Prod.fst).Nodup ∧
    (∃ res,
      parse_buffer exRegistry ([exRec1, exRec2].flatten ++ END_RECORD_BYTES) = .ok res ∧
      res.keyvalues = [exRec1, exRec2].map recordKV) ∧
    (∃ res,
      parse_buffer exRegistry (([] : List (List Nat)).flatten ++ END_RECORD_BYTES) = .ok res ∧
      res.keyvalues = ([] : List (List Nat)).map recordKV) :=
  ⟨by decide, by decide,
   parse_buffer_wellformed [exRec1, exRec2] exRegistry (by decide) (by decide)
     (fun e he => by
       simp only [exRegistry, List.mem_singleton] at he
       subst he
       exact ⟨_, rfl⟩),
   parse_buffer_wellformed [] exRegistry (by decide) (by decide)
     (fun e he => by
       simp only [exRegistry, List.mem_singleton] at he
       subst he
       exact ⟨_, rfl⟩)⟩

/-- orElseO with nothing to fall back to. -/
theorem orElseO_none_right (a : Option DecodedValue) : orElseO a none = a := by
  cases a <;> rfl

/-- Claim C7: with duplicate keys before the sentinel, the parsed mapping
holds exactly one entry per key (its key list is duplicate-free), and
every lookup returns the decoded value of the LAST record with that key. -/
theorem parse_buffer_duplicates (recs : List (List Nat))
    (registry : List SchemaRegistryEntry)
    (hwf : ∀ r ∈ recs, wfRecord r = true)
    (hfget : ∀ e ∈ registry, ∃ pv, e.fget (insertAll [] (recs.map recordKV)) = .ok pv) :
    ∃ res, parse_buffer registry (recs.flatten ++ END_RECORD_BYTES) = .ok res ∧
      (mapKeys res.keyvalues).Nodup ∧
      ∀ k, lookupKV res.keyvalues k = lookupKV (recs.map recordKV).reverse k := by
  have hloop := parse_keyvalues_records recs [] hwf
  obtain ⟨res, hres, hkv⟩ := auto_init_ok registry _ hfget
  refine ⟨res, ?_, ?_, ?_⟩
  · unfold parse_buffer
    simp only [hloop, hres]
  · rw [hkv]
    exact nodup_insertAll _ [] (by simp [mapKeys])
  · intro k
    rw [hkv, lookupKV_insertAll]
    exact orElseO_none_right _

/-- Witness for claim C7: PULSE=1 then PULSE=2; the reversed association
list confirms the latter wins. -/
theorem parse_buffer_duplicates_witness :
    (∀ r ∈ [exRec2, exRec3], wfRecord r = true) ∧
    lookupKV ([exRec2, exRec3].map recordKV).reverse ['P', 'U', 'L', 'S', 'E'] =
      some (.int 2) ∧
    (∃ res, parse_buffer exRegistry ([exRec2, exRec3].flatten ++ END_RECORD_BYTES) = .ok res ∧
      (mapKeys res.keyvalues).Nodup ∧
      ∀ k, lookupKV res.keyvalues k = lookupKV ([exRec2, exRec3].map recordKV).reverse k) :=
  ⟨by decide, by decide,
   parse_buffer_duplicates [exRec2, exRec3] exRegistry (by decide)
     (fun e he => by
       simp only [exRegistry, List.mem_singleton] at he
       subst he
       exact ⟨_, rfl⟩)⟩

/-- Claim C6: every parser failure is fatal and atomic: after any run of
well-formed records, an 80-byte record whose bytes do not decode as text
fails the whole parse with the record-decode error carrying the raw bytes,
and a decoded record containing no equals sign fails it with the
malformed-record error; in both cases parse_buffer returns the error — no
partial mapping — whatever bytes follow the bad record. -/
theorem parse_failures_fatal (recs : List (List Nat)) (bad tail : List Nat)
    (registry : List SchemaRegistryEntry)
    (hwf : ∀ r ∈ recs, wfRecord r = true) (hlen : bad.length = 80) :
    (utf8Decode bad = none →
      parse_buffer registry (recs.flatten ++ (bad ++ tail)) =
        .error (.recordDecodeError bad)) ∧
    ((∀ b ∈ bad, b < 0x80) → splitFirst (asciiDecode bad) '=' = none →
      asciiDecode bad ≠ END_RECORD →
      parse_buffer registry (recs.flatten ++ (bad ++ tail)) =
        .error (.malformedRecord (asciiDecode bad))) := by
  have happend := parse_keyvalues_append recs (bad ++ tail) [] hwf
  have hlen2 : ¬(bad ++ tail).length < 80 := by
    simp only [List.length_append, hlen]
    omega
  have htake : (bad ++ tail).take 80 = bad := by
    rw [← hlen]; exact List.take_left bad tail
  constructor
  · intro hdec
    have hdec2 : utf8Decode ((bad ++ tail).take 80) = none := by rw [htake]; exact hdec
    unfold parse_buffer
    rw [happend]
    unfold parse_keyvalues
    simp only [parseLoop, if_neg hlen2, hdec2, htake, hdec]
  · intro hascii hsplit hne
    have hdec2 : utf8Decode ((bad ++ tail).take 80) = some (asciiDecode bad) := by
      rw [htake]; exact utf8Decode_ascii bad hascii
    have hdec3 : utf8Decode bad = some (asciiDecode bad) := utf8Decode_ascii bad hascii
    unfold parse_buffer
    rw [happend]
    unfold parse_keyvalues
    simp only [parseLoop, if_neg hlen2, hdec2, htake, hdec3, if_neg hne, hsplit]

/-- Witness for claim C6: after a good PULSE record, a record opening with
byte 0xFF kills the parse with the decode error, and an ASCII record with
no equals sign kills it with the malformed-record error, the sentinel
bytes after them notwithstanding. -/
theorem parse_failures_fatal_witness :
    (∀ r ∈ [exRec2], wfRecord r = true) ∧
    exBadBytes.length = 80 ∧ exBadNoEq.length = 80 ∧
    parse_buffer exRegistry ([exRec2].flatten ++ (exBadBytes ++ END_RECORD_BYTES)) =
      .error (.recordDecodeError exBadBytes) ∧
    parse_buffer exRegistry ([exRec2].flatten ++ (exBadNoEq ++ END_RECORD_BYTES)) =
      .error (.malformedRecord (asciiDecode exBadNoEq)) :=
  ⟨by decide, by decide, by decide,
   (parse_failures_fatal [exRec2] exBadBytes END_RECORD_BYTES exRegistry
     (by decide) (by decide)).1 (by decide),
   (parse_failures_fatal [exRec2] exBadNoEq END_RECORD_BYTES exRegistry
     (by decide) (by decide)).2 (by decide) (by decide) (by decide)⟩
